import Mathlib

/-!
Shallow embedding of the webreq HTTP client core (RedeployAB/webreq):
the request-options builder and response-body codec of `lib/utils.js`,
and the dispatch / redirect / response-handling pipeline of `lib/webreq.js`
(the evolved 0.6.0 version).  JavaScript values are modelled explicitly:
`undefined` becomes `Option`, header maps become association lists with
JS-object update semantics, buffers become `List Nat` byte lists, and the
platform collaborators (`url.parse`, `JSON.parse`, `JSON.stringify`,
`Buffer` UTF-8 codecs, `path`) are given executable models so that every
definition can be evaluated inside the kernel.
-/

namespace Webreq

/-- A value stored in a JS header object: Node header values are strings,
but `createRequestOptions` stores `Buffer.byteLength(body)` (a number)
under `Content-Length`. -/
inductive HVal where
  | str (s : String)
  | num (n : Nat)
deriving DecidableEq

/-- JS string coercion of a header value (numbers print in decimal). -/
def HVal.asString : HVal → String
  | .str s => s
  | .num n => toString n

/-- A JS object used as a header map: an association list with unique keys,
looked up by exact (case-sensitive) key as JS property access does. -/
abbrev Headers := List (String × HVal)

/-- JS property read `headers[k]`: `none` models `undefined`. -/
def hget : Headers → String → Option HVal
  | [], _ => none
  | (k1, v) :: rest, k => if k1 = k then some v else hget rest k

/-- JS property write `headers[k] = v`: replaces the value in place when the
key exists, otherwise appends the new property. -/
def hset : Headers → String → HVal → Headers
  | [], k, v => [(k, v)]
  | (k1, v1) :: rest, k, v =>
    if k1 = k then (k, v) :: rest else (k1, v1) :: hset rest k v

/-- ASCII lower-casing of one character. -/
def lowerAsciiChar (c : Char) : Char :=
  if 'A' ≤ c && c ≤ 'Z' then Char.ofNat (c.toNat + 32) else c

/-- ASCII lower-casing of a string (used by the `url.parse` model for
protocol and hostname normalisation, and to state case-insensitivity
hypotheses about header keys). -/
def lowerAscii (s : String) : String := ⟨s.data.map lowerAsciiChar⟩

/-- The whitespace class of the JS regular expression in
`parseResponseBody`. -/
def jsWS (c : Char) : Bool :=
  c = ' ' || c = '\t' || c = '\n' || c = '\r' ||
  c = Char.ofNat 0x0b || c = Char.ofNat 0x0c || c = Char.ofNat 0xa0 ||
  c = Char.ofNat 0xfeff

/-- `s.replace(/\s+/, '')`: remove the first maximal whitespace run. -/
def stripFirstWSAux : List Char → List Char
  | [] => []
  | c :: cs => if jsWS c then cs.dropWhile jsWS else c :: stripFirstWSAux cs

/-- `s.split(';')[0]`: the characters before the first semicolon. -/
def takeUntilSemi : List Char → List Char
  | [] => []
  | c :: cs => if c = ';' then [] else c :: takeUntilSemi cs

/-- The MIME-type extraction performed by `parseResponseBody`:
`headers['content-type'].replace(/\s+/, '').split(';')[0]`. -/
def extractMime (s : String) : String := ⟨takeUntilSemi (stripFirstWSAux s.data)⟩

/-- Modelled from the claim wording of C9, for comparison with the code:
"the header value up to the first `;`", with no whitespace removal. -/
def claimMime (s : String) : String := ⟨takeUntilSemi s.data⟩

/-- A JSON value as produced by `JSON.parse`.  Arrays and objects are
encoded as cons cells inside the same inductive (`arrCons`/`objCons`) so
that equality stays structurally decidable; numbers keep their source
lexeme, which is all the client ever forwards. -/
inductive Json where
  | null
  | bool (b : Bool)
  | num (lexeme : String)
  | str (s : String)
  | arrNil
  | arrCons (head : Json) (tail : Json)
  | objNil
  | objCons (key : String) (val : Json) (tail : Json)
deriving DecidableEq

/-- Build an encoded JSON array from a reversed element list. -/
def arrOfRev (done : List Json) : Json :=
  done.foldl (fun acc v => Json.arrCons v acc) Json.arrNil

/-- Build an encoded JSON object from a reversed field list. -/
def objOfRev (done : List (String × Json)) : Json :=
  done.foldl (fun acc kv => Json.objCons kv.1 kv.2 acc) Json.objNil

/-- JSON source whitespace (RFC 8259: space, tab, LF, CR). -/
def jsonWS (c : Char) : Bool := c = ' ' || c = '\t' || c = '\n' || c = '\r'

/-- Skip JSON whitespace. -/
def skipWS : List Char → List Char
  | [] => []
  | c :: cs => if jsonWS c then skipWS cs else c :: cs

/-- Hexadecimal digit value, if any. -/
def hexVal (c : Char) : Option Nat :=
  if '0' ≤ c && c ≤ '9' then some (c.toNat - 48)
  else if 'a' ≤ c && c ≤ 'f' then some (c.toNat - 87)
  else if 'A' ≤ c && c ≤ 'F' then some (c.toNat - 70)
  else none

/-- The Unicode replacement character U+FFFD. -/
def replChar : Char := Char.ofNat 0xfffd

/-- Parse the remainder of a JSON string literal (the opening quote already
consumed), returning the decoded string and the input after the closing
quote.  Strict: raw control characters and unknown escapes are rejected;
a `\uXXXX` high surrogate followed by a `\uXXXX` low surrogate forms one
code point, a lone surrogate becomes U+FFFD (JS strings are UTF-16 and a
Lean `Char` cannot hold a lone surrogate).  Structurally recursive on a
fuel argument so the kernel can evaluate it; every step consumes at least
one character, so `length + 1` fuel always suffices. -/
def parseStringRestF : Nat → List Char → Option (String × List Char)
  | 0, _ => none
  | _ + 1, [] => none
  | fuel + 1, c :: cs =>
    if c = '"' then some ("", cs)
    else if c = '\\' then
      match cs with
      | [] => none
      | e :: cs1 =>
        if e = 'u' then
          match cs1 with
          | h1 :: h2 :: h3 :: h4 :: cs2 =>
            match hexVal h1, hexVal h2, hexVal h3, hexVal h4 with
            | some a, some b, some c3, some d =>
              let n := a * 4096 + b * 256 + c3 * 16 + d
              if 0xd800 ≤ n && n ≤ 0xdbff then
                match cs2 with
                | '\\' :: 'u' :: g1 :: g2 :: g3 :: g4 :: cs3 =>
                  (match hexVal g1, hexVal g2, hexVal g3, hexVal g4 with
                   | some a2, some b2, some c2, some d2 =>
                     let m := a2 * 4096 + b2 * 256 + c2 * 16 + d2
                     if 0xdc00 ≤ m && m ≤ 0xdfff then
                       let cp := 0x10000 + (n - 0xd800) * 1024 + (m - 0xdc00)
                       (parseStringRestF fuel cs3).map (fun r => (⟨Char.ofNat cp :: r.1.data⟩, r.2))
                     else
                       (parseStringRestF fuel cs2).map (fun r => (⟨replChar :: r.1.data⟩, r.2))
                   | _, _, _, _ =>
                     (parseStringRestF fuel cs2).map (fun r => (⟨replChar :: r.1.data⟩, r.2)))
                | _ =>
                  (parseStringRestF fuel cs2).map (fun r => (⟨replChar :: r.1.data⟩, r.2))
              else if 0xdc00 ≤ n && n ≤ 0xdfff then
                (parseStringRestF fuel cs2).map (fun r => (⟨replChar :: r.1.data⟩, r.2))
              else
                (parseStringRestF fuel cs2).map (fun r => (⟨Char.ofNat n :: r.1.data⟩, r.2))
            | _, _, _, _ => none
          | _ => none
        else
          let esc : Option Char :=
            if e = '"' then some '"'
            else if e = '\\' then some '\\'
            else if e = '/' then some '/'
            else if e = 'b' then some (Char.ofNat 8)
            else if e = 'f' then some (Char.ofNat 12)
            else if e = 'n' then some '\n'
            else if e = 'r' then some (Char.ofNat 13)
            else if e = 't' then some '\t'
            else none
          match esc with
          | some ch => (parseStringRestF fuel cs1).map (fun r => (⟨ch :: r.1.data⟩, r.2))
          | none => none
    else if c.toNat < 0x20 then none
    else (parseStringRestF fuel cs).map (fun r => (⟨c :: r.1.data⟩, r.2))

/-- See `parseStringRestF`: the fuel is fixed to an always-sufficient value. -/
def parseStringRest (cs : List Char) : Option (String × List Char) :=
  parseStringRestF (cs.length + 1) cs

/-- Parse a JSON number lexeme (RFC 8259 grammar), returning the lexeme and
the rest of the input. -/
def parseNumberLex (cs : List Char) : Option (List Char × List Char) :=
  let (neg, cs1) := match cs with
    | '-' :: r => (['-'], r)
    | _ => (([] : List Char), cs)
  match cs1 with
  | c :: r =>
    if c = '0' ∨ ¬ c.isDigit then
      if c = '0' then
        let intPart := [c]
        let afterInt := r
        let (frac, afterFrac) := match afterInt with
          | '.' :: r2 =>
            let ds := r2.takeWhile Char.isDigit
            if ds.isEmpty then ([], none) else ('.' :: ds, some (r2.dropWhile Char.isDigit))
          | _ => ([], some afterInt)
        match afterFrac with
        | none => none
        | some rest1 =>
          match rest1 with
          | e :: r3 =>
            if e = 'e' ∨ e = 'E' then
              let (sgn, r4) := match r3 with
                | '+' :: r5 => (['+'], r5)
                | '-' :: r5 => (['-'], r5)
                | _ => (([] : List Char), r3)
              let ds := r4.takeWhile Char.isDigit
              if ds.isEmpty then none
              else some (neg ++ intPart ++ frac ++ e :: sgn ++ ds, r4.dropWhile Char.isDigit)
            else some (neg ++ intPart ++ frac, rest1)
          | [] => some (neg ++ intPart ++ frac, [])
      else none
    else
      let intPart := cs1.takeWhile Char.isDigit
      let afterInt := cs1.dropWhile Char.isDigit
      let (frac, afterFrac) := match afterInt with
        | '.' :: r2 =>
          let ds := r2.takeWhile Char.isDigit
          if ds.isEmpty then ([], none) else ('.' :: ds, some (r2.dropWhile Char.isDigit))
        | _ => ([], some afterInt)
      match afterFrac with
      | none => none
      | some rest1 =>
        match rest1 with
        | e :: r3 =>
          if e = 'e' ∨ e = 'E' then
            let (sgn, r4) := match r3 with
              | '+' :: r5 => (['+'], r5)
              | '-' :: r5 => (['-'], r5)
              | _ => (([] : List Char), r3)
            let ds := r4.takeWhile Char.isDigit
            if ds.isEmpty then none
            else some (neg ++ intPart ++ frac ++ e :: sgn ++ ds, r4.dropWhile Char.isDigit)
          else some (neg ++ intPart ++ frac, rest1)
        | [] => some (neg ++ intPart ++ frac, [])
  | [] => none

/-- Parse a JSON literal or number at the head of the input. -/
def parseAtom (cs : List Char) : Option (Json × List Char) :=
  match cs with
  | 'n' :: 'u' :: 'l' :: 'l' :: r => some (.null, r)
  | 't' :: 'r' :: 'u' :: 'e' :: r => some (.bool true, r)
  | 'f' :: 'a' :: 'l' :: 's' :: 'e' :: r => some (.bool false, r)
  | _ =>
    match parseNumberLex cs with
    | some (lex, r) => some (.num ⟨lex⟩, r)
    | none => none

/-- A frame of the JSON parsing machine: a partially built array or object
(elements collected in reverse). -/
inductive PFrame where
  | inArr (done : List Json)
  | inObj (done : List (String × Json)) (key : String)
deriving DecidableEq

/-- Left brace and right brace characters. -/
def lbrace : Char := Char.ofNat 0x7b

/-- See `lbrace`. -/
def rbrace : Char := Char.ofNat 0x7d

/-- One-function JSON parser (a stack machine, structurally recursive on
fuel so that the kernel can evaluate it): when `acc` holds a completed
value the machine unwinds the frame stack, otherwise it parses a value.
Every step consumes at least one input character. -/
def parseMachine : Nat → List PFrame → Option Json → List Char → Option (Json × List Char)
  | 0, _, _, _ => none
  | fuel + 1, stack, some v, cs =>
    match stack with
    | [] => some (v, cs)
    | .inArr done :: st =>
      (match skipWS cs with
       | ',' :: r => parseMachine fuel (.inArr (v :: done) :: st) none r
       | ']' :: r => parseMachine fuel st (some (arrOfRev (v :: done))) r
       | _ => none)
    | .inObj done k :: st =>
      (match skipWS cs with
       | ',' :: r =>
         (match skipWS r with
          | '"' :: r2 =>
            (match parseStringRest r2 with
             | some (k2, r3) =>
               (match skipWS r3 with
                | ':' :: r4 => parseMachine fuel (.inObj ((k, v) :: done) k2 :: st) none r4
                | _ => none)
             | none => none)
          | _ => none)
       | c :: r =>
         if c = rbrace then parseMachine fuel st (some (objOfRev ((k, v) :: done))) r
         else none
       | [] => none)
  | fuel + 1, stack, none, cs =>
    match skipWS cs with
    | [] => none
    | c :: rest =>
      if c = lbrace then
        match skipWS rest with
        | c2 :: r2 =>
          if c2 = rbrace then parseMachine fuel stack (some .objNil) r2
          else if c2 = '"' then
            match parseStringRest r2 with
            | some (k, r3) =>
              (match skipWS r3 with
               | ':' :: r4 => parseMachine fuel (.inObj [] k :: stack) none r4
               | _ => none)
            | none => none
          else none
        | [] => none
      else if c = '[' then
        match skipWS rest with
        | ']' :: r2 => parseMachine fuel stack (some .arrNil) r2
        | r2 => parseMachine fuel (.inArr [] :: stack) none r2
      else if c = '"' then
        match parseStringRest rest with
        | some (s, r2) => parseMachine fuel stack (some (.str s)) r2
        | none => none
      else
        match parseAtom (c :: rest) with
        | some (v, r2) => parseMachine fuel stack (some v) r2
        | none => none

/-- Model of strict `JSON.parse`: `none` models a thrown `SyntaxError`
(only whitespace may follow the single top-level value). -/
def jsonParse (s : String) : Option Json :=
  match parseMachine (s.data.length + 2) [] none s.data with
  | some (v, rest) => if (skipWS rest).isEmpty then some v else none
  | none => none

/-- One character of JSON string-literal output, as `JSON.stringify`
escapes it. -/
def jsonEscapeChar (c : Char) : List Char :=
  if c = '"' then ['\\', '"']
  else if c = '\\' then ['\\', '\\']
  else if c = '\n' then ['\\', 'n']
  else if c = Char.ofNat 13 then ['\\', 'r']
  else if c = '\t' then ['\\', 't']
  else if c = Char.ofNat 8 then ['\\', 'b']
  else if c = Char.ofNat 12 then ['\\', 'f']
  else if c.toNat < 0x20 then
    ['\\', 'u', '0', '0',
     (if c.toNat / 16 < 10 then Char.ofNat (48 + c.toNat / 16) else Char.ofNat (87 + c.toNat / 16)),
     (if c.toNat % 16 < 10 then Char.ofNat (48 + c.toNat % 16) else Char.ofNat (87 + c.toNat % 16))]
  else [c]

/-- A JSON string literal for `s`, as `JSON.stringify` prints it. -/
def jsonQuote (s : String) : String :=
  ⟨'"' :: (s.data.map jsonEscapeChar).flatten ++ ['"']⟩

/-- Model of `JSON.stringify` on the value kinds the client can see.  The
second argument distinguishes printing a whole value from printing the
tail of an array/object that is already open (the cons-cell encoding of
containers makes this a single structural recursion). -/
def jsonStringifyAux : Json → Bool → String
  | .null, _ => "null"
  | .bool true, _ => "true"
  | .bool false, _ => "false"
  | .num lexeme, _ => lexeme
  | .str s, _ => jsonQuote s
  | .arrNil, false => "[]"
  | .arrNil, true => ""
  | .arrCons h t, false => "[" ++ jsonStringifyAux h false ++ jsonStringifyAux t true ++ "]"
  | .arrCons h t, true => "," ++ jsonStringifyAux h false ++ jsonStringifyAux t true
  | .objNil, false => "\x7b\x7d"
  | .objNil, true => ""
  | .objCons k v t, false =>
    "\x7b" ++ jsonQuote k ++ ":" ++ jsonStringifyAux v false ++ jsonStringifyAux t true ++ "\x7d"
  | .objCons k v t, true => "," ++ jsonQuote k ++ ":" ++ jsonStringifyAux v false ++ jsonStringifyAux t true

/-- See `jsonStringifyAux`. -/
def jsonStringify (j : Json) : String := jsonStringifyAux j false

/-- UTF-8 encoding of one character (how a Node `Buffer` stores a JS
string written with `req.write` or measured by `Buffer.byteLength`). -/
def encodeChar (c : Char) : List Nat :=
  let n := c.toNat
  if n < 0x80 then [n]
  else if n < 0x800 then [0xc0 + n / 64, 0x80 + n % 64]
  else if n < 0x10000 then [0xe0 + n / 4096, 0x80 + (n / 64) % 64, 0x80 + n % 64]
  else [0xf0 + n / 262144, 0x80 + (n / 4096) % 64, 0x80 + (n / 64) % 64, 0x80 + n % 64]

/-- UTF-8 byte encoding of a string; its length is `Buffer.byteLength`. -/
def utf8Encode (s : String) : List Nat := (s.data.map encodeChar).flatten

/-- Is `b` a UTF-8 continuation byte? -/
def isCont (b : Nat) : Bool := 0x80 ≤ b && b < 0xc0

/-- UTF-8 decoding of a byte list, invalid sequences becoming U+FFFD
(the behaviour of `Buffer.prototype.toString('utf8')`).  Structurally
recursive on fuel; each step consumes at least one byte. -/
def utf8DecodeAux : Nat → List Nat → List Char
  | 0, _ => []
  | _ + 1, [] => []
  | fuel + 1, b :: rest =>
    if b < 0x80 then Char.ofNat b :: utf8DecodeAux fuel rest
    else if b < 0xc2 then replChar :: utf8DecodeAux fuel rest
    else if b < 0xe0 then
      match rest with
      | b2 :: r =>
        if isCont b2 then Char.ofNat ((b - 0xc0) * 64 + (b2 - 0x80)) :: utf8DecodeAux fuel r
        else replChar :: utf8DecodeAux fuel rest
      | [] => [replChar]
    else if b < 0xf0 then
      match rest with
      | b2 :: b3 :: r =>
        if isCont b2 && isCont b3 then
          let n := (b - 0xe0) * 4096 + (b2 - 0x80) * 64 + (b3 - 0x80)
          (if n < 0x800 || (0xd800 ≤ n && n < 0xe000) then replChar else Char.ofNat n) ::
            utf8DecodeAux fuel r
        else replChar :: utf8DecodeAux fuel rest
      | _ => [replChar]
    else if b < 0xf5 then
      match rest with
      | b2 :: b3 :: b4 :: r =>
        if isCont b2 && isCont b3 && isCont b4 then
          let n := (b - 0xf0) * 262144 + (b2 - 0x80) * 4096 + (b3 - 0x80) * 64 + (b4 - 0x80)
          (if n < 0x10000 || 0x110000 ≤ n then replChar else Char.ofNat n) ::
            utf8DecodeAux fuel r
        else replChar :: utf8DecodeAux fuel rest
      | _ => [replChar]
    else replChar :: utf8DecodeAux fuel rest

/-- See `utf8DecodeAux`: `Buffer.concat(chunks).toString()` is
`utf8Decode` of the concatenated chunk bytes. -/
def utf8Decode (bytes : List Nat) : String := ⟨utf8DecodeAux bytes.length bytes⟩

/-- The request body slot of a webreq options object.  `undef` models the
absent property; `str` a JS string; `buf` a Node `Buffer`; `stream` a
readable byte stream abstracted by the chunk sequence its data events
emit; `jsval` any other JS value (a structured value, modelled as the
JSON value it serialises to). -/
inductive JsBody where
  | undef
  | str (s : String)
  | buf (bytes : List Nat)
  | stream (chunks : List (List Nat))
  | jsval (j : Json)
deriving DecidableEq

/-- Is this JSON number lexeme a zero (so falsy in JS)? -/
def numLexemeIsZero (lexeme : String) : Bool :=
  ((lexeme.data.dropWhile (· = '-')).takeWhile
      (fun c => ¬ (c = 'e' ∨ c = 'E'))).all (fun c => c = '0' ∨ c = '.')

/-- JS truthiness of a body value (`if (opts.body)`): `undefined`, `''`,
`null`, `false` and `0` are falsy; every object — including an empty
`Buffer` — is truthy. -/
def JsBody.truthy : JsBody → Bool
  | .undef => false
  | .str s => ¬ s.isEmpty
  | .buf _ => true
  | .stream _ => true
  | .jsval .null => false
  | .jsval (.bool b) => b
  | .jsval (.num lexeme) => ¬ numLexemeIsZero lexeme
  | .jsval (.str s) => ¬ s.isEmpty
  | .jsval _ => true

/-- `isStream(obj)` of `lib/utils.js`: `obj instanceof Stream`. -/
def isStream : JsBody → Bool
  | .stream _ => true
  | _ => false

/-- `Buffer.isBuffer(obj)`. -/
def isBuffer : JsBody → Bool
  | .buf _ => true
  | _ => false

/-- `typeof body === 'string'`. -/
def isStringBody : JsBody → Bool
  | .str _ => true
  | _ => false

/-- The result of the legacy Node `url.parse` on the fields webreq reads;
`none` models a `null` field. -/
structure ParsedUrl where
  protocol : Option String
  host : Option String
  hostname : Option String
  port : Option String
  pathname : Option String
  search : Option String
  path : Option String
  href : String
deriving DecidableEq

/-- JS string coercion of a possibly-null string (`null` prints as
"null", as in `parsedUrl.pathname + parsedUrl.search`). -/
def jsToString : Option String → String
  | some s => s
  | none => "null"

/-- Executable model of the legacy Node `url.parse` for the absolute
http/https URLs the client handles: scheme and hostname are
lower-cased, the port stays a string, an empty path becomes `/`, and
`search` keeps its leading `?`.  A string with no `://` is returned in
the degenerate path-only form `url.parse` produces for it. -/
def urlParse (uri : String) : ParsedUrl :=
  let cs := uri.data
  let scheme := cs.takeWhile (fun c => ¬ c = ':')
  match cs.dropWhile (fun c => ¬ c = ':') with
  | ':' :: '/' :: '/' :: rest =>
    let isAuthEnd : Char → Bool := fun c => c = '/' || c = '?' || c = '#'
    let authority := rest.takeWhile (fun c => ¬ isAuthEnd c)
    let tail := rest.dropWhile (fun c => ¬ isAuthEnd c)
    let hostPart := authority.takeWhile (fun c => ¬ c = ':')
    let port : Option String :=
      match authority.dropWhile (fun c => ¬ c = ':') with
      | ':' :: p => some ⟨p⟩
      | _ => none
    let hostname := lowerAscii ⟨hostPart⟩
    let host := hostname ++ (match port with | some p => ":" ++ p | none => "")
    let noHash := tail.takeWhile (fun c => ¬ c = '#')
    let pathAndQuery := match noHash with
      | [] => ['/']
      | '?' :: _ => '/' :: noHash
      | other => other
    let pathname : String := ⟨pathAndQuery.takeWhile (fun c => ¬ c = '?')⟩
    let search : Option String :=
      match pathAndQuery.dropWhile (fun c => ¬ c = '?') with
      | [] => none
      | q => some ⟨q⟩
    let protocol := lowerAscii ⟨scheme⟩ ++ ":"
    { protocol := some protocol
      host := some host
      hostname := some hostname
      port := port
      pathname := some pathname
      search := search
      path := some (pathname ++ (match search with | some q => q | none => ""))
      href := protocol ++ "//" ++ host ++ pathname ++ (match search with | some q => q | none => "") }
  | _ =>
    { protocol := none, host := none, hostname := none, port := none
      pathname := if uri.isEmpty then none else some uri
      search := none
      path := if uri.isEmpty then none else some uri
      href := uri }

/-- `parseInt` on the digit strings `url.parse` produces for ports;
`none` models `NaN` (no leading digits). -/
def jsParseInt (s : String) : Option Int :=
  let (neg, cs) := match s.data with
    | '-' :: r => (true, r)
    | '+' :: r => (false, r)
    | r => (false, r)
  let ds := cs.takeWhile Char.isDigit
  if ds.isEmpty then none
  else
    let n : Nat := ds.foldl (fun acc c => acc * 10 + (c.toNat - 48)) 0
    some (if neg then -(n : Int) else (n : Int))

/-- The `port` slot of the built request options: a number on the normal
path (`parseInt` or the scheme default), the raw parsed string — or
`null` — on the proxy path, which copies `parsedProxyUrl.port` verbatim. -/
inductive PortValue where
  | num (n : Int)
  | strVal (s : String)
  | nullPort
  | nan
deriving DecidableEq

/-- The per-request `agent` option: `false` explicitly disables pooling,
otherwise an opaque `http.Agent`/`https.Agent` handle. -/
inductive Agent where
  | disabled
  | pool (id : Nat)
deriving DecidableEq

/-- A webreq options object (the per-call `RequestConfig`).  `Option`
fields model properties that may be `undefined`; numbers are `Int` as JS
numbers on these code paths are integers. -/
structure Config where
  method : Option String := none
  headers : Option Headers := none
  body : JsBody := .undef
  parse : Option Bool := none
  stream : Option Bool := none
  followRedirects : Option Bool := none
  maxRedirects : Option Int := none
  redirects : Option Int := none
  path : Option String := none
  filename : Option String := none
  agent : Option Agent := none
  certificate : Option (List (String × String)) := none
  proxy : Option String := none
deriving DecidableEq

/-- JS truthiness of an optional boolean option. -/
def optBoolTruthy : Option Bool → Bool
  | some b => b
  | none => false

/-- JS truthiness of an optional string option (`undefined` and `''` are
falsy). -/
def optStrTruthy : Option String → Bool
  | some s => ¬ s.isEmpty
  | none => false

/-- The first header mutation of `createRequestOptions` (`lib/utils.js`
lines 22-24): add `Content-Type: application/json` when neither the
`Content-Type` nor the `content-type` key is present. -/
def inferContentType (headers : Headers) : Headers :=
  if (hget headers "Content-Type").isNone && (hget headers "content-type").isNone then
    hset headers "Content-Type" (.str "application/json")
  else headers

/-- The second header mutation of `createRequestOptions` (`lib/utils.js`
lines 26-28): for a string body, add
`Content-Length: Buffer.byteLength(body)` when neither `Content-Length`
nor `content-length` is present. -/
def inferContentLength (body : JsBody) (headers : Headers) : Headers :=
  if (hget headers "Content-Length").isNone && (hget headers "content-length").isNone &&
      isStringBody body then
    match body with
    | .str s => hset headers "Content-Length" (.num (utf8Encode s).length)
    | _ => headers
  else headers

/-- The body-inference of `createRequestOptions` (`lib/utils.js` lines
21-29): the two sequential header mutations, gated on a
POST/PUT/PATCH method with a defined body. -/
def headersAfterBodyInference (method : String) (body : JsBody) (headers : Headers) : Headers :=
  if (method = "POST" || method = "PUT" || method = "PATCH") && ¬ body = .undef then
    inferContentLength body (inferContentType headers)
  else headers

/-- The final state of the `headers` object mutated by
`createRequestOptions`: body inference, then — when a proxy is set — the
added `Host: <protocol>//<host>` entry. -/
def finalHeaders (parsedUrl : ParsedUrl) (opts : Config) : Headers :=
  let headers := headersAfterBodyInference (opts.method.getD "GET") opts.body (opts.headers.getD [])
  if optStrTruthy opts.proxy then
    hset headers "Host" (.str (jsToString parsedUrl.protocol ++ "//" ++ jsToString parsedUrl.host))
  else headers

/-- The transport connection parameters built by `createRequestOptions`. -/
structure RequestOptions where
  host : Option String
  port : PortValue
  path : Option String
  method : String
  headers : Option Headers
  certExtra : List (String × String)
  agent : Option Agent := none
deriving DecidableEq

/-- `createRequestOptions(parsedUrl, options)` of `lib/utils.js`: header
inference for payload-carrying verbs, scheme-default ports, path
assembly, proxy re-targeting (host/port from the parsed proxy URI, path
set to the original `href`, explicit `Host` header), omission of an empty
headers object, and verbatim copying of certificate entries for https. -/
def createRequestOptions (parsedUrl : ParsedUrl) (options : Option Config) : RequestOptions :=
  let opts := options.getD {}
  let method := opts.method.getD "GET"
  let headers := headersAfterBodyInference method opts.body (opts.headers.getD [])
  let host := parsedUrl.hostname
  let port : PortValue :=
    match parsedUrl.port with
    | some p => (match jsParseInt p with | some n => .num n | none => .nan)
    | none => if parsedUrl.protocol = some "https:" then .num 443 else .num 80
  let path : Option String :=
    match parsedUrl.search with
    | none => parsedUrl.pathname
    | some s => some (jsToString parsedUrl.pathname ++ s)
  let proxied :=
    if optStrTruthy opts.proxy then
      let parsedProxyUrl := urlParse (jsToString opts.proxy)
      (parsedProxyUrl.hostname,
       (match parsedProxyUrl.port with | some s => PortValue.strVal s | none => PortValue.nullPort),
       some parsedUrl.href,
       hset headers "Host" (.str (jsToString parsedUrl.protocol ++ "//" ++ jsToString parsedUrl.host)))
    else (host, port, path, headers)
  { host := proxied.1
    port := proxied.2.1
    path := proxied.2.2.1
    method := method
    headers := if proxied.2.2.2.isEmpty then none else some proxied.2.2.2
    certExtra :=
      if parsedUrl.protocol = some "https:" && opts.certificate.isSome then
        opts.certificate.getD []
      else [] }

/-- The decoded body of a buffered response: a JSON value when a parse
succeeded, otherwise a string; `null` is only ever produced by the file
handler. -/
inductive BodyVal where
  | null
  | json (j : Json)
  | str (s : String)
deriving DecidableEq

/-- `parseResponseBody(headers, body)` of `lib/utils.js`: with a declared
content type, JSON parse (falling back to the literal string
`'Malformed JSON.'`) when the extracted MIME type is `application/json`
and the verbatim UTF-8 string otherwise; with no declared content type,
an opportunistic JSON parse falling back silently to the UTF-8 string. -/
def parseResponseBody (headers : Headers) (body : List (List Nat)) : BodyVal :=
  match hget headers "content-type" with
  | some v =>
    let mimeType := extractMime v.asString
    if mimeType = "application/json" then
      match jsonParse (utf8Decode body.flatten) with
      | some j => .json j
      | none => .str "Malformed JSON."
    else .str (utf8Decode body.flatten)
  | none =>
    match jsonParse (utf8Decode body.flatten) with
    | some j => .json j
    | none => .str (utf8Decode body.flatten)

/-- Does `hay` contain `pat` starting at its head? -/
def listStartsWith : List Char → List Char → Bool
  | _, [] => true
  | [], _ :: _ => false
  | a :: as1, b :: bs => a = b && listStartsWith as1 bs

/-- `String.prototype.includes`. -/
def listContains : List Char → List Char → Bool
  | [], pat => pat.isEmpty
  | a :: t, pat => listStartsWith (a :: t) pat || listContains t pat

/-- `s.split(c)`. -/
def splitOnChar (c : Char) : List Char → List (List Char)
  | [] => [[]]
  | a :: rest =>
    if a = c then [] :: splitOnChar c rest
    else
      match splitOnChar c rest with
      | [] => [[a]]
      | seg :: segs => (a :: seg) :: segs

/-- Node `path.basename`: the last path segment, ignoring trailing
slashes. -/
def pathBasename (p : String) : String :=
  let cs := (p.data.reverse.dropWhile (· = '/')).reverse
  ⟨(cs.reverse.takeWhile (fun c => ¬ c = '/')).reverse⟩

/-- Node `path.flatten` on two segments. -/
def pathJoin (a b : String) : String :=
  if a.isEmpty then (if b.isEmpty then "." else b)
  else if b.isEmpty then a
  else if a.data.getLast? = some '/' then a ++ b else a ++ "/" ++ b

/-- `filename(headers, outputPath, uriPath, name)` of `lib/utils.js`:
explicit name, else the segment after `=` of a `content-disposition`
header containing `filename`, else the basename of the request path,
joined onto the output directory. -/
def filename (headers : Headers) (outputPath : String) (uriPath : String)
    (name : Option String) : String :=
  let fname :=
    match name with
    | some n => n
    | none =>
      match hget headers "content-disposition" with
      | some v =>
        if listContains v.asString.data "filename".data then
          jsToString (((splitOnChar '=' v.asString.data).get? 1).map (fun l => (⟨l⟩ : String)))
        else pathBasename uriPath
      | none => pathBasename uriPath
  pathJoin outputPath fname

/-- The response event delivered by the transport: status code, headers
(Node lower-cases incoming header names) and the body chunk sequence its
data events will emit. -/
structure Res where
  statusCode : Int
  headers : Headers
  chunks : List (List Nat)
deriving DecidableEq

/-- The resolved `Response` object (`lib/response.js`): a plain record of
status code, headers and body. -/
structure Response where
  statusCode : Int
  headers : Headers
  body : BodyVal
deriving DecidableEq

/-- JS `<` on two possibly-undefined numbers
(`options.redirects < options.maxRedirects`): any comparison with
`undefined` is false. -/
def jsLt : Option Int → Option Int → Bool
  | some a, some b => a < b
  | _, _ => false

/-- JS `options.redirects++` (incrementing `undefined` yields `NaN`,
modelled as staying `none`). -/
def jsInc : Option Int → Option Int
  | some n => some (n + 1)
  | none => none

/-- The redirect test of `_request` (`lib/webreq.js`): status in
[300,400), `followRedirects` truthy, method not `'DELETE'`, redirect
counter strictly below `maxRedirects`, and a `location` header present. -/
def redirectCond (options : Config) (res : Res) : Bool :=
  (300 ≤ res.statusCode) && (res.statusCode < 400) &&
  optBoolTruthy options.followRedirects && ¬ options.method = some "DELETE" &&
  jsLt options.redirects options.maxRedirects &&
  ¬ (hget res.headers "location") = none

/-- `_responseHandler(res, options, callback)`: buffer all chunks, decode
them through `parseResponseBody` when `options.parse` is truthy and as
the raw UTF-8 string otherwise, and invoke the callback with a null
error and the built `Response` — this handler always succeeds. -/
def _responseHandler (options : Config) (res : Res) : Response :=
  let body :=
    if optBoolTruthy options.parse then parseResponseBody res.headers res.chunks
    else BodyVal.str (utf8Decode res.chunks.flatten)
  { statusCode := res.statusCode, headers := res.headers, body := body }

/-- The file write performed by `_responseFileHandler`: the resolved
output path and the bytes piped into the write stream. -/
structure FileWrite where
  outputPath : String
  chunks : List (List Nat)
deriving DecidableEq

/-- `_responseFileHandler(res, options, path, callback)`: resolve the
output path with `filename`, pipe the chunks into a write stream, and
invoke the callback with a null error and a `Response` whose body is
`null`. -/
def _responseFileHandler (options : Config) (res : Res) (path : Option String) :
    FileWrite × Response :=
  let fname := options.filename
  let outputPath := filename res.headers (jsToString options.path) (jsToString path) fname
  (⟨outputPath, res.chunks⟩,
   { statusCode := res.statusCode, headers := res.headers, body := BodyVal.null })

/-- What the dispatcher delivers to the callback on success: the live
response stream (when `options.stream`) or a resolved `Response`. -/
inductive Delivered where
  | streamHandle (res : Res)
  | response (r : Response)
deriving DecidableEq

/-- One dispatcher step outcome: a tail-recursive re-issue against the
`location` target with the mutated options object, or a terminal
callback invocation `(err, value)` (`err = none` is the null error of a
successful delivery). -/
inductive StepResult where
  | reissue (target : String) (cfg : Config)
  | done (err : Option String) (value : Delivered)
deriving DecidableEq

/-- The response-observation logic of `_request` (`lib/webreq.js`,
the `proto.request` callback): check the redirect condition, increment
the counter and re-issue on success, otherwise route to the stream,
file or buffered handler — each of which calls back with a null error.
`requestMethod` is `requestOptions.method` (the defaulted method) and
`uriPath` is `parsedUrl.path`. -/
def handleResponse (options : Config) (requestMethod : String) (uriPath : Option String)
    (res : Res) : StepResult :=
  if redirectCond options res then
    .reissue ((hget res.headers "location").elim "" HVal.asString)
      { options with redirects := jsInc options.redirects }
  else if optBoolTruthy options.stream then
    .done none (.streamHandle res)
  else if optStrTruthy options.path && requestMethod = "GET" then
    .done none (.response (_responseFileHandler options res uriPath).2)
  else
    .done none (.response (_responseHandler options res))

/-- One transport action on the open request: `req.write(data)` or
`req.end()`. -/
inductive WireEvent where
  | write (data : JsBody)
  | endCall
deriving DecidableEq

/-- `_requestWriter(req, data)` (`lib/webreq.js`): a stream body pipes
each data chunk into `req.write` and calls `req.end()` on the source
stream's end event; any other body issues a single `req.write(data)` —
and nothing else (the source contains no `req.end()` on this branch). -/
def _requestWriter (data : JsBody) : List WireEvent :=
  if isStream data then
    (match data with
     | .stream chunks => chunks.map (fun c => WireEvent.write (.buf c))
     | _ => []) ++ [WireEvent.endCall]
  else [WireEvent.write data]

/-- The body-transmission step of `_request`
(`if (options.body) _requestWriter(req, options.body) else req.end()`). -/
def bodyTransmission (body : JsBody) : List WireEvent :=
  if body.truthy then _requestWriter body else [WireEvent.endCall]

/-- Instance-level defaults held by a `WebReq` object (its constructor:
`stream` false, `parse` true, `followRedirects` false, `maxRedirects`
3, each overridable by the constructor options). -/
structure WebReqInst where
  stream : Bool := false
  parse : Bool := true
  followRedirects : Bool := false
  maxRedirects : Int := 3
deriving DecidableEq

/-- The option normalisation performed by `WebReq.request` before
dispatch (`lib/webreq.js` lines 59-79), mutating the caller's options
object in place: substitute `{ method: 'GET' }` when options are
undefined, fill `stream`/`parse`/`followRedirects`/`maxRedirects` from
the instance defaults, set `redirects` to 0, JSON-stringify a truthy
body that is neither stream nor buffer nor string, and otherwise — for
POST/PUT with a `path` — replace the body by a file read stream (`fs`
is the filesystem collaborator giving the chunks that stream emits).
The returned value is the final state of the object `request` passes to
`_request`. -/
def normalizeOptions (fs : String → List (List Nat)) (inst : WebReqInst)
    (options : Option Config) : Config :=
  let opts := options.getD { method := some "GET" }
  let opts := { opts with
    stream := some ((opts.stream).getD inst.stream)
    parse := some ((opts.parse).getD inst.parse)
    followRedirects := some ((opts.followRedirects).getD inst.followRedirects)
    maxRedirects := some ((opts.maxRedirects).getD inst.maxRedirects)
    redirects := some 0 }
  if opts.body.truthy && ¬ isStream opts.body && ¬ isBuffer opts.body &&
      ¬ isStringBody opts.body then
    { opts with body := .str (jsonStringify (match opts.body with
        | .jsval j => j
        | _ => Json.null)) }
  else if (opts.method = some "POST" || opts.method = some "PUT") && optStrTruthy opts.path then
    { opts with body := .stream (fs (jsToString opts.path)) }
  else opts

/-- The options value `WebReq.post` forwards to `this.request`: the
wrapper builds a defaulted `opts`, sets `opts.method = 'POST'` (which
mutates the caller's object when one was passed), but then passes the
original `options` parameter — so when options were omitted the fresh
`opts` object is discarded and `request` receives `undefined`. -/
def postForwardedOptions (options : Option Config) : Option Config :=
  match options with
  | some o => some { o with method := some "POST" }
  | none => none

/-- See `postForwardedOptions`; `WebReq.put` has the same shape with
`'PUT'`. -/
def putForwardedOptions (options : Option Config) : Option Config :=
  match options with
  | some o => some { o with method := some "PUT" }
  | none => none

/-- See `postForwardedOptions`; `WebReq.patch` has the same shape with
`'PATCH'`. -/
def patchForwardedOptions (options : Option Config) : Option Config :=
  match options with
  | some o => some { o with method := some "PATCH" }
  | none => none

/-- See `postForwardedOptions`; `WebReq.delete` has the same shape with
`'DELETE'`. -/
def deleteForwardedOptions (options : Option Config) : Option Config :=
  match options with
  | some o => some { o with method := some "DELETE" }
  | none => none

/-- The HTTP method of the wire request a call dispatches: `request`
normalises the options and `createRequestOptions` defaults the method to
`'GET'`. -/
def dispatchedMethod (fs : String → List (List Nat)) (inst : WebReqInst)
    (options : Option Config) (uri : String) : String :=
  (createRequestOptions (urlParse uri) (some (normalizeOptions fs inst options))).method

/-- The caller-visible state of the options object after `_request` has
built the connection parameters: `createRequestOptions` aliases and
mutates `opts.headers` in place when the caller supplied a headers
object (when `opts.headers` was undefined the inference ran on a fresh
object invisible to the caller). -/
def dispatchHeaderWriteback (cfg : Config) (parsedUrl : ParsedUrl) : Config :=
  match cfg.headers with
  | some _ => { cfg with headers := some (finalHeaders parsedUrl cfg) }
  | none => cfg

/-- The redirect chain of `_request` as a bounded iteration: each round
builds the request options (mutating the caller-visible headers),
observes the transport's response for the current URI (`net` maps a URI
to the response the transport delivers), and either re-issues against
the `location` target with the mutated options or terminates.  Returns
the final state of the options object together with the terminal step.
The fuel only caps the modelled chain length; each re-issue strictly
increases the `redirects` counter, which the redirect condition bounds
by `maxRedirects`. -/
def runDispatch : Nat → (String → Res) → String → Config → Config × StepResult
  | 0, net, uri, cfg => (cfg, .done none (.streamHandle (net uri)))
  | fuel + 1, net, uri, cfg =>
    let parsedUrl := urlParse uri
    let requestOptions := createRequestOptions parsedUrl (some cfg)
    let cfg1 := dispatchHeaderWriteback cfg parsedUrl
    match handleResponse cfg1 requestOptions.method parsedUrl.path (net uri) with
    | .reissue target cfg2 => runDispatch fuel net target cfg2
    | r => (cfg1, r)

/-! Helper lemmas about the header map and the MIME extraction. -/

theorem hget_mem {hs : Headers} {k : String} {v : HVal} (h : hget hs k = some v) :
    (k, v) ∈ hs := by
  induction hs with
  | nil => simp [hget] at h
  | cons a rest ih =>
    obtain ⟨k1, v1⟩ := a
    by_cases hk : k1 = k
    · subst hk
      simp [hget] at h
      simp [h]
    · simp [hget, hk] at h
      exact List.mem_cons_of_mem _ (ih h)

theorem hget_eq_none_of_lower {hs : Headers} {k : String}
    (h : ∀ k1 v, (k1, v) ∈ hs → ¬ lowerAscii k1 = lowerAscii k) : hget hs k = none := by
  cases hv : hget hs k with
  | none => rfl
  | some v => exact absurd rfl (h k v (hget_mem hv))

theorem hget_hset_self (hs : Headers) (k : String) (v : HVal) :
    hget (hset hs k v) k = some v := by
  induction hs with
  | nil => simp [hset, hget]
  | cons a rest ih =>
    obtain ⟨k1, v1⟩ := a
    by_cases hk : k1 = k
    · simp [hset, hk, hget]
    · simp [hset, hk, hget, ih]

theorem hget_hset_ne (hs : Headers) (k k2 : String) (v : HVal) (h : ¬ k2 = k) :
    hget (hset hs k v) k2 = hget hs k2 := by
  have hkk : ¬ k = k2 := fun he => h he.symm
  induction hs with
  | nil =>
    simp only [hset, hget]
    rw [if_neg hkk]
  | cons a rest ih =>
    obtain ⟨k1, v1⟩ := a
    simp only [hset]
    by_cases hk : k1 = k
    · rw [if_pos hk]
      simp only [hget]
      rw [if_neg hkk, if_neg (fun he => h (he.symm.trans hk))]
    · rw [if_neg hk]
      simp only [hget]
      by_cases hk2 : k1 = k2
      · rw [if_pos hk2, if_pos hk2]
      · rw [if_neg hk2, if_neg hk2, ih]

theorem hset_ne_nil (hs : Headers) (k : String) (v : HVal) : ¬ hset hs k v = [] := by
  cases hs with
  | nil => simp [hset]
  | cons a rest =>
    obtain ⟨k1, v1⟩ := a
    by_cases hk : k1 = k <;> simp [hset, hk]

theorem stripFirstWSAux_append_of_no_ws (l1 l2 : List Char)
    (h : ∀ c ∈ l1, jsWS c = false) :
    stripFirstWSAux (l1 ++ l2) = l1 ++ stripFirstWSAux l2 := by
  induction l1 with
  | nil => simp
  | cons a t ih =>
    have ha : jsWS a = false := h a (List.mem_cons_self a t)
    simp [stripFirstWSAux, ha, ih (fun c hc => h c (List.mem_cons_of_mem a hc))]

theorem takeUntilSemi_append_semi (l1 l2 : List Char) (h : ∀ c ∈ l1, ¬ c = ';') :
    takeUntilSemi (l1 ++ ';' :: l2) = l1 := by
  induction l1 with
  | nil => simp [takeUntilSemi]
  | cons a t ih =>
    have ha : ¬ a = ';' := h a (List.mem_cons_self a t)
    simp [takeUntilSemi, ha, ih (fun c hc => h c (List.mem_cons_of_mem a hc))]

theorem extractMime_json (ct : String)
    (h : ct = "application/json" ∨ ∃ p, ct = "application/json;" ++ p) :
    extractMime ct = "application/json" := by
  rcases h with h | ⟨p, h⟩ <;> subst h
  · decide
  · simp only [extractMime]
    have h2 : ("application/json;" ++ p).data = "application/json;".data ++ p.data :=
      String.data_append _ _
    rw [h2, stripFirstWSAux_append_of_no_ws _ _ (by decide)]
    rw [show ("application/json;".data ++ stripFirstWSAux p.data : List Char) =
      "application/json".data ++ ';' :: stripFirstWSAux p.data from rfl]
    rw [takeUntilSemi_append_semi _ _ (by decide)]

theorem parseResponseBody_ne_null (hs : Headers) (chunks : List (List Nat)) :
    ¬ parseResponseBody hs chunks = BodyVal.null := by
  unfold parseResponseBody
  cases hget hs "content-type" with
  | some v =>
    by_cases hm : extractMime v.asString = "application/json"
    · cases jsonParse (utf8Decode chunks.flatten) <;> simp [hm]
    · simp [hm]
  | none => cases jsonParse (utf8Decode chunks.flatten) <;> simp

theorem handleResponse_reissue_config (options : Config) (m : String) (up : Option String)
    (res : Res) (t : String) (cfg2 : Config)
    (h : handleResponse options m up res = .reissue t cfg2) :
    cfg2 = { options with redirects := jsInc options.redirects } ∧
      t = (hget res.headers "location").elim "" HVal.asString := by
  unfold handleResponse at h
  by_cases hr : redirectCond options res = true
  · rw [if_pos hr] at h
    injection h with h1 h2
    exact ⟨h2.symm, h1.symm⟩
  · rw [if_neg hr] at h
    split at h
    · exact StepResult.noConfusion h
    · split at h
      · exact StepResult.noConfusion h
      · exact StepResult.noConfusion h

/-! The claim theorems. -/

/-- C10: `parseResponseBody` is total on every headers mapping and chunk
list: it always returns a decoded JSON value, the verbatim UTF-8 string
of the concatenated bytes, or the sentinel string — both JSON parse
attempts are guarded and no other outcome exists. -/
theorem parse_response_body_total (hs : Headers) (chunks : List (List Nat)) :
    (∃ j, parseResponseBody hs chunks = BodyVal.json j) ∨
    parseResponseBody hs chunks = BodyVal.str (utf8Decode chunks.flatten) ∨
    parseResponseBody hs chunks = BodyVal.str "Malformed JSON." := by
  unfold parseResponseBody
  cases hget hs "content-type" with
  | some v =>
    by_cases hm : extractMime v.asString = "application/json"
    · cases hj : jsonParse (utf8Decode chunks.flatten) with
      | some j => exact Or.inl ⟨j, by simp [hm, hj]⟩
      | none => exact Or.inr (Or.inr (by simp [hm, hj]))
    · exact Or.inr (Or.inl (by simp [hm]))
  | none =>
    cases hj : jsonParse (utf8Decode chunks.flatten) with
    | some j => exact Or.inl ⟨j, by simp [hj]⟩
    | none => exact Or.inr (Or.inl (by simp [hj]))

/-- C2 (against the claim): with the options argument omitted, the verb
wrappers `post`/`put`/`patch`/`delete` dispatch a GET — the wrapper sets
the method on its local `opts` object but forwards the original
(undefined) `options`, so `request` substitutes `{ method: 'GET' }`.
With an options object present the methods are enforced as documented
(shown for `post`). -/
theorem verb_wrappers_omitted_options_dispatch_get :
    dispatchedMethod (fun _ => []) {} (postForwardedOptions none) "https://someurl.not" = "GET" ∧
    dispatchedMethod (fun _ => []) {} (putForwardedOptions none) "https://someurl.not" = "GET" ∧
    dispatchedMethod (fun _ => []) {} (patchForwardedOptions none) "https://someurl.not" = "GET" ∧
    dispatchedMethod (fun _ => []) {} (deleteForwardedOptions none) "https://someurl.not" = "GET" ∧
    dispatchedMethod (fun _ => []) {} (postForwardedOptions (some {})) "https://someurl.not" =
      "POST" :=
  ⟨rfl, rfl, rfl, rfl, rfl⟩

/-- C4 (against the claim): a string or buffer body produces exactly one
transport write and no `end` call at all (the source's `_requestWriter`
lacks `req.end()` on the non-stream branch); an absent body ends with no
write, and a stream body writes each chunk and then ends — so the claim's
"write then immediately finalize" fails for string and buffer bodies. -/
theorem string_body_write_without_end :
    bodyTransmission (JsBody.str "data") = [WireEvent.write (JsBody.str "data")] ∧
    WireEvent.endCall ∉ bodyTransmission (JsBody.str "data") ∧
    bodyTransmission (JsBody.buf [1, 2]) = [WireEvent.write (JsBody.buf [1, 2])] ∧
    WireEvent.endCall ∉ bodyTransmission (JsBody.buf [1, 2]) ∧
    bodyTransmission JsBody.undef = [WireEvent.endCall] ∧
    bodyTransmission (JsBody.stream [[1], [2]]) =
      [WireEvent.write (JsBody.buf [1]), WireEvent.write (JsBody.buf [2]), WireEvent.endCall] :=
  ⟨rfl, by decide, rfl, by decide, rfl, rfl⟩

/-- C3: whenever the response's `content-type` value declares the MIME
type `application/json` (alone or followed by `;` and parameters) and the
buffered bytes fail to parse as JSON, the buffered handler resolves
successfully (null error is built into `_responseHandler`) with the body
equal to the literal sentinel string `'Malformed JSON.'`. -/
theorem malformed_json_sentinel (options : Config) (st : Int) (hs : Headers)
    (chunks : List (List Nat)) (ct : String)
    (hct : hget hs "content-type" = some (HVal.str ct))
    (hmime : ct = "application/json" ∨ ∃ p, ct = "application/json;" ++ p)
    (hbad : (jsonParse (utf8Decode chunks.flatten)).isNone = true)
    (hparse : optBoolTruthy options.parse = true) :
    _responseHandler options ⟨st, hs, chunks⟩ =
      { statusCode := st, headers := hs, body := BodyVal.str "Malformed JSON." } := by
  have hm := extractMime_json ct hmime
  have hb : jsonParse (utf8Decode chunks.flatten) = none := Option.isNone_iff_eq_none.mp hbad
  unfold _responseHandler parseResponseBody
  simp [hparse, hct, HVal.asString, hm, hb]

/-- Witness for C3 at the spec's own example: truncated JSON bytes under a
declared `application/json` content type. -/
theorem malformed_json_sentinel_witness :
    _responseHandler { parse := some true }
        ⟨200, [("content-type", HVal.str "application/json")],
         [utf8Encode "[\x7b\"some\":\"data\""]⟩ =
      { statusCode := 200, headers := [("content-type", HVal.str "application/json")],
        body := BodyVal.str "Malformed JSON." } :=
  malformed_json_sentinel { parse := some true } 200
    [("content-type", HVal.str "application/json")] [utf8Encode "[\x7b\"some\":\"data\""]
    "application/json" (by decide) (Or.inl rfl) (by decide) (by decide)

/-- C9 (amended): for a declared content type whose extracted MIME type —
the header value with its first whitespace run removed, then cut at the
first `;`, with no case normalisation — is not `application/json`, the
decoded body is the verbatim UTF-8 string of the concatenated bytes. -/
theorem non_json_mime_identity (hs : Headers) (chunks : List (List Nat)) (ct : String)
    (hct : hget hs "content-type" = some (HVal.str ct))
    (hmime : ¬ extractMime ct = "application/json") :
    parseResponseBody hs chunks = BodyVal.str (utf8Decode chunks.flatten) := by
  unfold parseResponseBody
  simp [hct, HVal.asString, hmime]

/-- Witness for C9 (amended) at a concrete non-JSON content type. -/
theorem non_json_mime_identity_witness :
    parseResponseBody [("content-type", HVal.str "text/plain")] [[104, 101, 106]] =
      BodyVal.str (utf8Decode (List.flatten [[104, 101, 106]])) :=
  non_json_mime_identity [("content-type", HVal.str "text/plain")] [[104, 101, 106]]
    "text/plain" (by decide) (by decide)

/-- C9 counterexample: the claim reads the MIME type as "the header value
up to the first `;`", but the code first strips the first whitespace run;
for `content-type: application/json ;charset=utf-8` the claim's MIME type
is not `application/json`, yet the code takes the JSON branch and
decodes the bytes of `\x7b\x7d` to a JSON object instead of the verbatim
string required by the claim. -/
theorem mime_whitespace_claim_counterexample :
    ¬ claimMime "application/json ;charset=utf-8" = "application/json" ∧
    ¬ parseResponseBody [("content-type", HVal.str "application/json ;charset=utf-8")]
        [utf8Encode "\x7b\x7d"] =
      BodyVal.str (utf8Decode (List.flatten [utf8Encode "\x7b\x7d"])) :=
  ⟨by decide, by decide⟩

theorem redirectCond_iff (options : Config) (res : Res) :
    redirectCond options res = true ↔
      (300 ≤ res.statusCode ∧ res.statusCode < 400 ∧
       optBoolTruthy options.followRedirects = true ∧
       ¬ options.method = some "DELETE" ∧
       jsLt options.redirects options.maxRedirects = true ∧
       (hget res.headers "location").isSome = true) := by
  unfold redirectCond
  simp [Bool.and_eq_true, decide_eq_true_eq, and_assoc, Option.isSome_iff_ne_none, ne_eq]

/-- C1: the dispatcher re-issues the request exactly when the status code
is in [300,400), `followRedirects` is truthy, the method is not DELETE,
the redirect counter is strictly below `maxRedirects` and a `location`
header is present; on re-issue the target is the `location` value and
the options object is the same one with only its redirect counter
incremented; whenever any condition fails the response — 3xx included —
is delivered through a handler that invokes the callback with a null
error, never as an error. -/
theorem dispatcher_redirect_decision (options : Config) (m : String) (up : Option String)
    (res : Res) :
    ((∃ t cfg2, handleResponse options m up res = StepResult.reissue t cfg2) ↔
      (300 ≤ res.statusCode ∧ res.statusCode < 400 ∧
       optBoolTruthy options.followRedirects = true ∧
       ¬ options.method = some "DELETE" ∧
       jsLt options.redirects options.maxRedirects = true ∧
       (hget res.headers "location").isSome = true)) ∧
    (∀ t cfg2, handleResponse options m up res = StepResult.reissue t cfg2 →
       cfg2 = { options with redirects := jsInc options.redirects } ∧
       t = (hget res.headers "location").elim "" HVal.asString) ∧
    (∀ e v, handleResponse options m up res = StepResult.done e v → e = none) := by
  refine ⟨⟨?_, ?_⟩, ?_, ?_⟩
  · rintro ⟨t, cfg2, ht⟩
    by_contra hc
    have hr : ¬ redirectCond options res = true :=
      fun htrue => hc ((redirectCond_iff options res).mp htrue)
    unfold handleResponse at ht
    rw [if_neg hr] at ht
    split at ht
    · exact StepResult.noConfusion ht
    · split at ht
      · exact StepResult.noConfusion ht
      · exact StepResult.noConfusion ht
  · intro hconds
    have hr := (redirectCond_iff options res).mpr hconds
    exact ⟨_, _, by unfold handleResponse; rw [if_pos hr]⟩
  · intro t cfg2 ht
    exact handleResponse_reissue_config options m up res t cfg2 ht
  · intro e v hv
    unfold handleResponse at hv
    by_cases hr : redirectCond options res = true
    · rw [if_pos hr] at hv
      exact StepResult.noConfusion hv
    · rw [if_neg hr] at hv
      split at hv
      · injection hv with h1 _
        exact h1.symm
      · split at hv
        · injection hv with h1 _
          exact h1.symm
        · injection hv with h1 _
          exact h1.symm

/-- Witness for C1: a 302 with a `location` header, `followRedirects`
true and the counter below the maximum is re-issued. -/
theorem dispatcher_redirect_decision_witness :
    ∃ t cfg2,
      handleResponse
        { method := some "GET", parse := some true, stream := some false,
          followRedirects := some true, maxRedirects := some 3, redirects := some 0 }
        "GET" (some "/") ⟨302, [("location", HVal.str "https://t/next")], []⟩ =
        StepResult.reissue t cfg2 :=
  (dispatcher_redirect_decision
    { method := some "GET", parse := some true, stream := some false,
      followRedirects := some true, maxRedirects := some 3, redirects := some 0 }
    "GET" (some "/") ⟨302, [("location", HVal.str "https://t/next")], []⟩).1.mpr (by decide)

theorem createRequestOptions_headers (parsedUrl : ParsedUrl) (opts : Config) :
    (createRequestOptions parsedUrl (some opts)).headers =
      (if (finalHeaders parsedUrl opts).isEmpty then none
       else some (finalHeaders parsedUrl opts)) := by
  unfold createRequestOptions finalHeaders
  by_cases hp : optStrTruthy opts.proxy = true <;> simp [hp]

theorem isEmpty_false_of_ne_nil {l : Headers} (h : ¬ l = []) : l.isEmpty = false := by
  cases l with
  | nil => exact absurd rfl h
  | cons a t => rfl

theorem inference_gate_true (m0 : String) (body : JsBody)
    (hm : m0 = "POST" ∨ m0 = "PUT" ∨ m0 = "PATCH") (hb : ¬ body = JsBody.undef) :
    ((m0 = "POST" || m0 = "PUT" || m0 = "PATCH") && ¬ body = JsBody.undef : Bool) = true := by
  rcases hm with h | h | h <;> subst h <;> simp [hb]

theorem inferContentType_get_other (headers : Headers) (k : String)
    (hk : ¬ k = "Content-Type") :
    hget (inferContentType headers) k = hget headers k := by
  unfold inferContentType
  split
  · exact hget_hset_ne _ _ _ _ hk
  · rfl

theorem inferContentLength_get_other (body : JsBody) (headers : Headers) (k : String)
    (hk : ¬ k = "Content-Length") :
    hget (inferContentLength body headers) k = hget headers k := by
  unfold inferContentLength
  split
  · split
    · exact hget_hset_ne _ _ _ _ hk
    · rfl
  · rfl

theorem inferContentLength_not_string (body : JsBody) (headers : Headers)
    (hb : isStringBody body = false) :
    inferContentLength body headers = headers := by
  unfold inferContentLength
  rw [if_neg]
  simp [hb]

theorem inference_ct (m0 : String) (body : JsBody) (headers : Headers)
    (hm : m0 = "POST" ∨ m0 = "PUT" ∨ m0 = "PATCH") (hb : ¬ body = JsBody.undef)
    (hct1 : hget headers "Content-Type" = none)
    (hct2 : hget headers "content-type" = none) :
    hget (headersAfterBodyInference m0 body headers) "Content-Type" =
      some (HVal.str "application/json") ∧
    ¬ headersAfterBodyInference m0 body headers = [] := by
  unfold headersAfterBodyInference
  rw [if_pos (inference_gate_true m0 body hm hb)]
  have hct : inferContentType headers =
      hset headers "Content-Type" (HVal.str "application/json") := by
    unfold inferContentType
    rw [if_pos (by simp [hct1, hct2])]
  constructor
  · rw [inferContentLength_get_other _ _ _ (by decide), hct, hget_hset_self]
  · intro hnil
    have : hget (inferContentLength body (inferContentType headers)) "Content-Type" =
        some (HVal.str "application/json") := by
      rw [inferContentLength_get_other _ _ _ (by decide), hct, hget_hset_self]
    rw [hnil] at this
    exact Option.noConfusion this

theorem inference_cl_string (m0 : String) (s : String) (headers : Headers)
    (hm : m0 = "POST" ∨ m0 = "PUT" ∨ m0 = "PATCH")
    (hcl1 : hget headers "Content-Length" = none)
    (hcl2 : hget headers "content-length" = none) :
    hget (headersAfterBodyInference m0 (JsBody.str s) headers) "Content-Length" =
      some (HVal.num (utf8Encode s).length) ∧
    ¬ headersAfterBodyInference m0 (JsBody.str s) headers = [] := by
  unfold headersAfterBodyInference
  rw [if_pos (inference_gate_true m0 (JsBody.str s) hm (by simp))]
  have e1 : hget (inferContentType headers) "Content-Length" = none := by
    rw [inferContentType_get_other _ _ (by decide)]
    exact hcl1
  have e2 : hget (inferContentType headers) "content-length" = none := by
    rw [inferContentType_get_other _ _ (by decide)]
    exact hcl2
  have hcl : inferContentLength (JsBody.str s) (inferContentType headers) =
      hset (inferContentType headers) "Content-Length" (HVal.num (utf8Encode s).length) := by
    unfold inferContentLength
    rw [if_pos (by simp [e1, e2, isStringBody])]
  rw [hcl]
  exact ⟨hget_hset_self _ _ _, hset_ne_nil _ _ _⟩

theorem inference_no_cl (m0 : String) (body : JsBody) (headers : Headers) (k : String)
    (hbody : isStringBody body = false)
    (hk : lowerAscii k = "content-length")
    (hnone : hget headers k = none) :
    hget (headersAfterBodyInference m0 body headers) k = none := by
  have hkct : ¬ k = "Content-Type" := by
    intro he
    rw [he] at hk
    exact absurd hk (by decide)
  unfold headersAfterBodyInference
  split
  · rw [inferContentLength_not_string _ _ hbody, inferContentType_get_other _ _ hkct]
    exact hnone
  · exact hnone

theorem finalHeaders_get_other (parsedUrl : ParsedUrl) (opts : Config) (k : String)
    (hk : ¬ k = "Host") :
    hget (finalHeaders parsedUrl opts) k =
      hget (headersAfterBodyInference (opts.method.getD "GET") opts.body
        (opts.headers.getD [])) k := by
  unfold finalHeaders
  split
  · exact hget_hset_ne _ _ _ _ hk
  · rfl

theorem finalHeaders_ne_nil (parsedUrl : ParsedUrl) (opts : Config)
    (h : ¬ headersAfterBodyInference (opts.method.getD "GET") opts.body
      (opts.headers.getD []) = []) :
    ¬ finalHeaders parsedUrl opts = [] := by
  unfold finalHeaders
  split
  · exact hset_ne_nil _ _ _
  · exact h

theorem createRequestOptions_headers_some (parsedUrl : ParsedUrl) (opts : Config)
    (h : ¬ headersAfterBodyInference (opts.method.getD "GET") opts.body
      (opts.headers.getD []) = []) :
    (createRequestOptions parsedUrl (some opts)).headers = some (finalHeaders parsedUrl opts) := by
  rw [createRequestOptions_headers,
    isEmpty_false_of_ne_nil (finalHeaders_ne_nil parsedUrl opts h)]
  simp

/-- C5: for a POST, PUT or PATCH request with a defined body, if no
`Content-Type` key is present under any letter-casing the built request
headers carry `Content-Type: application/json`; if additionally the body
is a string and no `Content-Length` key is present under any
letter-casing, the built headers carry `Content-Length` equal to the
UTF-8 byte length of that string; and buffer or stream bodies receive no
inferred `Content-Length` under any letter-casing. -/
theorem post_header_inference (parsedUrl : ParsedUrl) (opts : Config)
    (hm : opts.method = some "POST" ∨ opts.method = some "PUT" ∨ opts.method = some "PATCH")
    (hb : ¬ opts.body = JsBody.undef) :
    ((∀ k1 v, (k1, v) ∈ opts.headers.getD [] → ¬ lowerAscii k1 = "content-type") →
      ∃ h, (createRequestOptions parsedUrl (some opts)).headers = some h ∧
        hget h "Content-Type" = some (HVal.str "application/json")) ∧
    (∀ s, opts.body = JsBody.str s →
      (∀ k1 v, (k1, v) ∈ opts.headers.getD [] → ¬ lowerAscii k1 = "content-length") →
      ∃ h, (createRequestOptions parsedUrl (some opts)).headers = some h ∧
        hget h "Content-Length" = some (HVal.num (utf8Encode s).length)) ∧
    ((isBuffer opts.body = true ∨ isStream opts.body = true) →
      (∀ k1 v, (k1, v) ∈ opts.headers.getD [] → ¬ lowerAscii k1 = "content-length") →
      ∀ k, lowerAscii k = "content-length" →
        ∀ h, (createRequestOptions parsedUrl (some opts)).headers = some h →
          hget h k = none) := by
  have hm0 : opts.method.getD "GET" = "POST" ∨ opts.method.getD "GET" = "PUT" ∨
      opts.method.getD "GET" = "PATCH" := by
    rcases hm with h | h | h <;> rw [h] <;> simp
  refine ⟨?_, ?_, ?_⟩
  · intro hnoct
    have hct1 : hget (opts.headers.getD []) "Content-Type" = none :=
      hget_eq_none_of_lower (fun k1 v hmem => by
        rw [show lowerAscii "Content-Type" = "content-type" from by decide]
        exact hnoct k1 v hmem)
    have hct2 : hget (opts.headers.getD []) "content-type" = none :=
      hget_eq_none_of_lower (fun k1 v hmem => by
        rw [show lowerAscii "content-type" = "content-type" from by decide]
        exact hnoct k1 v hmem)
    obtain ⟨hres, hnil⟩ := inference_ct _ opts.body _ hm0 hb hct1 hct2
    refine ⟨finalHeaders parsedUrl opts, createRequestOptions_headers_some parsedUrl opts hnil, ?_⟩
    rw [finalHeaders_get_other _ _ _ (by decide)]
    exact hres
  · intro s hbs hnocl
    have hcl1 : hget (opts.headers.getD []) "Content-Length" = none :=
      hget_eq_none_of_lower (fun k1 v hmem => by
        rw [show lowerAscii "Content-Length" = "content-length" from by decide]
        exact hnocl k1 v hmem)
    have hcl2 : hget (opts.headers.getD []) "content-length" = none :=
      hget_eq_none_of_lower (fun k1 v hmem => by
        rw [show lowerAscii "content-length" = "content-length" from by decide]
        exact hnocl k1 v hmem)
    have := inference_cl_string (opts.method.getD "GET") s (opts.headers.getD []) hm0 hcl1 hcl2
    rw [← hbs] at this
    obtain ⟨hres, hnil⟩ := this
    refine ⟨finalHeaders parsedUrl opts, createRequestOptions_headers_some parsedUrl opts hnil, ?_⟩
    rw [finalHeaders_get_other _ _ _ (by decide)]
    exact hres
  · intro hbody hnocl k hk h hsome
    have hstr : isStringBody opts.body = false := by
      rcases hbody with hb1 | hb1 <;> cases hbb : opts.body <;> simp_all [isBuffer, isStream, isStringBody]
    have hkhost : ¬ k = "Host" := by
      intro he
      rw [he] at hk
      exact absurd hk (by decide)
    have hnone : hget (opts.headers.getD []) k = none :=
      hget_eq_none_of_lower (fun k1 v hmem => by
        rw [hk]
        exact hnocl k1 v hmem)
    rw [createRequestOptions_headers] at hsome
    split at hsome
    · exact Option.noConfusion hsome
    · injection hsome with hfin
      rw [← hfin, finalHeaders_get_other _ _ _ hkhost]
      exact inference_no_cl _ _ _ _ hstr hk hnone

/-- Witness for C5: a POST with a JSON string body and no preset headers
gets both inferred headers; a PUT with a buffer body gets no inferred
`Content-Length`. -/
theorem post_header_inference_witness :
    (∃ h, (createRequestOptions (urlParse "https://someurl.not/x")
        (some { method := some "POST", body := JsBody.str "\x7b\"a\":1\x7d" })).headers =
          some h ∧
      hget h "Content-Type" = some (HVal.str "application/json")) ∧
    (∃ h, (createRequestOptions (urlParse "https://someurl.not/x")
        (some { method := some "POST", body := JsBody.str "\x7b\"a\":1\x7d" })).headers =
          some h ∧
      hget h "Content-Length" = some (HVal.num (utf8Encode "\x7b\"a\":1\x7d").length)) ∧
    (∀ h, (createRequestOptions (urlParse "https://someurl.not/x")
        (some { method := some "PUT", body := JsBody.buf [1, 2] })).headers = some h →
      hget h "Content-Length" = none) := by
  have t1 := post_header_inference (urlParse "https://someurl.not/x")
    { method := some "POST", body := JsBody.str "\x7b\"a\":1\x7d" } (Or.inl rfl) (by decide)
  have t2 := post_header_inference (urlParse "https://someurl.not/x")
    { method := some "PUT", body := JsBody.buf [1, 2] } (Or.inr (Or.inl rfl)) (by decide)
  refine ⟨t1.1 (by intro k1 v hv; simp at hv),
    t1.2.1 "\x7b\"a\":1\x7d" rfl (by intro k1 v hv; simp at hv), ?_⟩
  intro h hh
  exact t2.2.2 (Or.inl rfl) (by intro k1 v hv; simp at hv) "Content-Length" (by decide) h hh

/-- C6: with a proxy option set, the built connection parameters take
host and port from the parsed proxy URI, the path is the full original
URI (`href`), and the headers carry a `Host` entry equal to the original
scheme, `//`, and the original host. -/
theorem proxy_rewrite (parsedUrl : ParsedUrl) (opts : Config) (p : String)
    (hp : opts.proxy = some p) (hne : ¬ p.isEmpty = true) :
    (createRequestOptions parsedUrl (some opts)).host = (urlParse p).hostname ∧
    (createRequestOptions parsedUrl (some opts)).port =
      (match (urlParse p).port with
       | some s => PortValue.strVal s
       | none => PortValue.nullPort) ∧
    (createRequestOptions parsedUrl (some opts)).path = some parsedUrl.href ∧
    ∃ h, (createRequestOptions parsedUrl (some opts)).headers = some h ∧
      hget h "Host" =
        some (HVal.str (jsToString parsedUrl.protocol ++ "//" ++ jsToString parsedUrl.host)) := by
  have ht : optStrTruthy opts.proxy = true := by
    rw [hp]
    simp [optStrTruthy, hne]
  have hjs : jsToString opts.proxy = p := by rw [hp]; rfl
  refine ⟨?_, ?_, ?_, ?_⟩
  · unfold createRequestOptions
    simp [ht, hjs]
  · unfold createRequestOptions
    simp [ht, hjs]
  · unfold createRequestOptions
    simp [ht]
  · refine ⟨hset (headersAfterBodyInference (opts.method.getD "GET") opts.body
      (opts.headers.getD [])) "Host"
      (HVal.str (jsToString parsedUrl.protocol ++ "//" ++ jsToString parsedUrl.host)), ?_, ?_⟩
    · unfold createRequestOptions
      simp [ht, isEmpty_false_of_ne_nil (hset_ne_nil _ _ _)]
    · exact hget_hset_self _ _ _

/-- Witness for C6 at the spec's example: proxy `http://proxy:8080` and
target `https://someurl.not/x`. -/
theorem proxy_rewrite_witness :
    (createRequestOptions (urlParse "https://someurl.not/x")
      (some { proxy := some "http://proxy:8080" })).host = some "proxy" ∧
    (createRequestOptions (urlParse "https://someurl.not/x")
      (some { proxy := some "http://proxy:8080" })).port = PortValue.strVal "8080" ∧
    (createRequestOptions (urlParse "https://someurl.not/x")
      (some { proxy := some "http://proxy:8080" })).path = some "https://someurl.not/x" ∧
    ∃ h, (createRequestOptions (urlParse "https://someurl.not/x")
        (some { proxy := some "http://proxy:8080" })).headers = some h ∧
      hget h "Host" = some (HVal.str "https://someurl.not") := by
  have t := proxy_rewrite (urlParse "https://someurl.not/x")
    { proxy := some "http://proxy:8080" } "http://proxy:8080" rfl (by decide)
  obtain ⟨h1, h2, h3, h, hh, hv⟩ := t
  exact ⟨h1.trans (by decide), h2.trans (by decide), h3.trans (by decide),
    h, hh, hv.trans (by decide)⟩

/-- C7 (amended): for every resolved non-streaming call, the body of the
delivered `Response` is the JS `null` value exactly when the call took
the file-download path (`path` set and effective method GET), or when
parsing was enabled and the payload decoded to the JSON literal `null`;
an empty payload of a buffered call yields the empty string (or the
sentinel under a declared JSON content type), never `null`. -/
theorem response_body_null_characterization (options : Config) (m : String)
    (up : Option String) (res : Res) (e : Option String) (r : Response)
    (h : handleResponse options m up res = StepResult.done e (Delivered.response r)) :
    ((r.body = BodyVal.null ∨ r.body = BodyVal.json Json.null) ↔
      ((optStrTruthy options.path = true ∧ m = "GET") ∨
       (optBoolTruthy options.parse = true ∧
        parseResponseBody res.headers res.chunks = BodyVal.json Json.null))) := by
  unfold handleResponse at h
  by_cases hr : redirectCond options res = true
  · rw [if_pos hr] at h
    exact StepResult.noConfusion h
  · rw [if_neg hr] at h
    by_cases hs1 : optBoolTruthy options.stream = true
    · rw [if_pos hs1] at h
      injection h with h1 h2
      exact Delivered.noConfusion h2
    · rw [if_neg hs1] at h
      by_cases hs2 : (optStrTruthy options.path && decide (m = "GET")) = true
      · rw [if_pos hs2] at h
        injection h with h1 h2
        injection h2 with h3
        rw [← h3]
        have hconj : optStrTruthy options.path = true ∧ m = "GET" := by
          simpa [Bool.and_eq_true, decide_eq_true_eq] using hs2
        simp [_responseFileHandler, hconj]
      · rw [if_neg hs2] at h
        have hconj : ¬ (optStrTruthy options.path = true ∧ m = "GET") := by
          intro hcj
          exact hs2 (by simp [Bool.and_eq_true, decide_eq_true_eq, hcj.1, hcj.2])
        injection h with h1 h2
        injection h2 with h3
        rw [← h3]
        unfold _responseHandler
        by_cases hp : optBoolTruthy options.parse = true
        · rw [if_pos hp]
          constructor
          · rintro (hnull | hjson)
            · exact absurd hnull (parseResponseBody_ne_null res.headers res.chunks)
            · exact Or.inr ⟨hp, hjson⟩
          · rintro (hfile | ⟨_, hjson⟩)
            · exact absurd hfile hconj
            · exact Or.inr hjson
        · rw [if_neg hp]
          simp only []
          constructor
          · rintro (hnull | hjson)
            · exact BodyVal.noConfusion hnull
            · exact BodyVal.noConfusion hjson
          · rintro (hfile | ⟨hpt, _⟩)
            · exact absurd hfile hconj
            · exact absurd hpt hp

/-- Witness for C7 (amended): a GET with `path` set resolves through the
file handler with a `null` body. -/
theorem response_body_null_characterization_witness :
    BodyVal.null = BodyVal.null ∨ BodyVal.null = BodyVal.json Json.null :=
  (response_body_null_characterization
    { parse := some true, stream := some false, path := some "/tmp" } "GET"
    (some "/a/b.bin") ⟨200, [], [[104]]⟩ none { statusCode := 200, headers := [], body := BodyVal.null }
    (by decide)).mpr (Or.inl (by decide))

/-- C7 counterexample: a buffered call whose payload is empty resolves
with body `''` (the empty string), not `null`, although it is neither a
file download nor a non-empty payload — refuting the claim's "body is
null exactly when … the original payload was empty or absent". -/
theorem empty_payload_body_counterexample :
    handleResponse { parse := some true, stream := some false } "GET" (some "/")
        ⟨200, [], []⟩ =
      StepResult.done none
        (Delivered.response { statusCode := 200, headers := [], body := BodyVal.str "" }) ∧
    ¬ BodyVal.str "" = BodyVal.null :=
  ⟨by decide, by decide⟩

theorem dispatchHeaderWriteback_frame (cfg : Config) (parsedUrl : ParsedUrl) :
    ∃ hs2, dispatchHeaderWriteback cfg parsedUrl = { cfg with headers := hs2 } := by
  unfold dispatchHeaderWriteback
  cases hh : cfg.headers with
  | some x => exact ⟨some (finalHeaders parsedUrl cfg), rfl⟩
  | none => exact ⟨cfg.headers, rfl⟩

theorem runDispatch_frame (fuel : Nat) (net : String → Res) (uri : String) (cfg : Config) :
    ∃ r hs2, (runDispatch fuel net uri cfg).1 = { cfg with redirects := r, headers := hs2 } := by
  induction fuel generalizing uri cfg with
  | zero => exact ⟨cfg.redirects, cfg.headers, rfl⟩
  | succ n ih =>
    obtain ⟨hs1, hw⟩ := dispatchHeaderWriteback_frame cfg (urlParse uri)
    unfold runDispatch
    cases hstep : handleResponse (dispatchHeaderWriteback cfg (urlParse uri))
        (createRequestOptions (urlParse uri) (some cfg)).method (urlParse uri).path
        (net uri) with
    | reissue t cfg2 =>
      obtain ⟨r2, hs3, hrun⟩ := ih t cfg2
      refine ⟨r2, hs3, ?_⟩
      simp only [hstep]
      rw [hrun, (handleResponse_reissue_config _ _ _ _ _ _ hstep).1, hw]
    | done e v =>
      refine ⟨cfg.redirects, hs1, ?_⟩
      simp only [hstep]
      rw [hw]

/-- C8 (amended): across one logical call the dispatcher's redirect chain
mutates the caller's options object only in its `redirects` counter and
— through `createRequestOptions`'s in-place inference — its `headers`
mapping; the facade's normalisation additionally fills the
`parse`/`stream`/`followRedirects`/`maxRedirects` defaults, resets
`redirects`, and can replace `body`; the fields `method`, `path`,
`filename`, `agent`, `certificate` and `proxy` keep their values from
call entry to resolution. -/
theorem config_mutation_scope (fs : String → List (List Nat)) (inst : WebReqInst) (o : Config)
    (fuel : Nat) (net : String → Res) (uri : String) :
    (∃ r hs2, (runDispatch fuel net uri (normalizeOptions fs inst (some o))).1 =
        { normalizeOptions fs inst (some o) with redirects := r, headers := hs2 }) ∧
    (normalizeOptions fs inst (some o)).method = o.method ∧
    (normalizeOptions fs inst (some o)).headers = o.headers ∧
    (normalizeOptions fs inst (some o)).path = o.path ∧
    (normalizeOptions fs inst (some o)).filename = o.filename ∧
    (normalizeOptions fs inst (some o)).agent = o.agent ∧
    (normalizeOptions fs inst (some o)).certificate = o.certificate ∧
    (normalizeOptions fs inst (some o)).proxy = o.proxy := by
  refine ⟨runDispatch_frame fuel net uri _, ?_, ?_, ?_, ?_, ?_, ?_, ?_⟩
  all_goals simp only [normalizeOptions, Option.getD_some]
  all_goals split
  all_goals try split
  all_goals rfl

/-- C8 counterexample: a structured body is replaced by its JSON
serialisation before dispatch — the caller-supplied options object does
not keep its `body` field, refuting "mutated only in its redirects
counter field". -/
theorem config_mutation_counterexample :
    ¬ (normalizeOptions (fun _ => []) {}
        (some { method := some "POST",
                body := JsBody.jsval (Json.objCons "a" (Json.str "b") Json.objNil) })).body =
      JsBody.jsval (Json.objCons "a" (Json.str "b") Json.objNil) := by decide

end Webreq
